import Mathlib

/-!
Shallow embedding of the bsdiff4 patch reader/applier (`src/lib.rs`) and the
MD5 checksum collaborator (`src/checksum.rs`).

Conventions of the embedding:
* Byte streams are `List Nat`; on real inputs every element is `< 256`.
* Machine integers are `Nat`/`Int` with explicit reductions modulo `2 ^ 64`
  where the Rust code wraps (`wrapping_abs`, cursor positions).
* Fallible Rust functions returning `anyhow::Result` become `Except PErr`,
  with one error kind per distinct failure site.
* `Read`/`Seek` sources are modelled as in-memory cursors (`RCursor`), the
  instantiation exercised by `Bsdiff4::apply_to_slice` via `io::Cursor`:
  reading yields the bytes from the current position (zero bytes once the
  position is at or past the end) and seeking to a negative or
  `u64`-overflowing position is an immediate error, as in `std::io::Cursor`.
* The bzip2 decompressor is external to the repository; it is kept abstract
  as a parameter `D : List Nat → Except PErr (List Nat)` mapping the bounded
  compressed window to the decompressed bytes.  A bounded block
  (`r.take(len)` in the source) consumes its whole `len`-byte window.
-/

namespace Bsdiff

/-- Error kinds, one per failure site of `src/lib.rs` / `std::io::Cursor`. -/
inductive PErr where
  /-- Rust `ensure!(magic == MAGIC, "invalid bsdiff4 magic")` -/
  | badMagic
  /-- too few bytes available: `read_exact` / `read_i64` failing, or
  `copy_exact`'s `ensure!(bytes_written == amount)` -/
  | shortRead
  /-- Rust `u64::try_from(i64)` / `usize::try_from` failing on a negative value -/
  | invalidLength
  /-- Rust `bail!("invalid control block size")` -/
  | malformedControl
  /-- a decompression failure inside `BzDecoder` -/
  | corruptBlock
  /-- Rust `io::Cursor::seek` to a negative or overflowing position -/
  | invalidSeek
deriving DecidableEq, Repr

/-- Result type standing for `anyhow::Result`. -/
abbrev Res (α : Type) := Except PErr α

/-- Rust `const MAGIC: &[u8] = b"BSDIFF40";` -/
def MAGIC : List Nat := [0x42, 0x53, 0x44, 0x49, 0x46, 0x46, 0x34, 0x30]

/-- Value of a little-endian byte list (least significant byte first). -/
def le_bytes_to_nat : List Nat → Nat
  | [] => 0
  | b :: bs => b + 256 * le_bytes_to_nat bs

/-- Reinterpret a 64-bit pattern as a two's-complement `i64`. -/
def i64_of_raw (raw : Nat) : Int :=
  if raw % 2 ^ 64 < 2 ^ 63 then ((raw % 2 ^ 64 : Nat) : Int)
  else ((raw % 2 ^ 64 : Nat) : Int) - 2 ^ 64

/-- The 64-bit pattern of an `i64` value (two's complement). -/
def raw_of_i64 (y : Int) : Nat := (y % 2 ^ 64).toNat

/-- Rust `i64::wrapping_abs`. -/
def wrapping_abs_i64 (y : Int) : Int := i64_of_raw (raw_of_i64 |y|)

/-- Rust `const fn ones_complement_i64(y: i64) -> i64 { y & i64::MIN | y.wrapping_abs() }`,
performed on the 64-bit patterns exactly as the machine does
(`i64::MIN` has pattern `2 ^ 63`). -/
def ones_complement_i64 (y : Int) : Int :=
  i64_of_raw (Nat.lor (Nat.land (raw_of_i64 y) (2 ^ 63)) (raw_of_i64 (wrapping_abs_i64 y)))

/-- Rust `r.read_i64::<LE>()`: take 8 little-endian bytes off the stream. -/
def read_i64_le (s : List Nat) : Res (Int × List Nat) :=
  if 8 ≤ s.length then .ok (i64_of_raw (le_bytes_to_nat (s.take 8)), s.drop 8)
  else .error .shortRead

/-- Rust `fn read_ones_complement_le_i64(r) -> Result<i64>`. -/
def read_ones_complement_le_i64 (s : List Nat) : Res (Int × List Nat) :=
  match read_i64_le s with
  | .error e => .error e
  | .ok (n, rest) => .ok (ones_complement_i64 n, rest)

/-- Rust `u64::try_from(n: i64)`: fails exactly on negative values. -/
def u64_try_from (y : Int) : Res Nat :=
  if 0 ≤ y then .ok y.toNat else .error .invalidLength

/-- Rust `fn read_positive_le_i64(r) -> Result<u64>`. -/
def read_positive_le_i64 (s : List Nat) : Res (Nat × List Nat) :=
  match read_i64_le s with
  | .error e => .error e
  | .ok (n, rest) =>
    match u64_try_from n with
    | .error e => .error e
    | .ok m => .ok (m, rest)

/-- Rust `struct Control { diff_amount: u64, extra_amount: u64, seek: i64 }` -/
structure Control where
  diff_amount : Nat
  extra_amount : Nat
  seek : Int
deriving DecidableEq, Repr

/-- The decode loop body of `read_control_block`, once per record. -/
def read_controls : Nat → List Nat → Res (List Control)
  | 0, _ => .ok []
  | n + 1, s =>
    match read_positive_le_i64 s with
    | .error e => .error e
    | .ok (da, s) =>
      match read_positive_le_i64 s with
      | .error e => .error e
      | .ok (ea, s) =>
        match read_ones_complement_le_i64 s with
        | .error e => .error e
        | .ok (sk, s) =>
          match read_controls n s with
          | .error e => .error e
          | .ok rest => .ok (⟨da, ea, sk⟩ :: rest)

/-- Rust `fn read_bzip_block(r, len)`: decompress exactly the next `len` bytes
(`BzDecoder::new(r.take(len))`); `D` is the abstract decompressor. -/
def read_bzip_block (D : List Nat → Res (List Nat)) (s : List Nat) (len : Nat) :
    Res (List Nat × List Nat) :=
  match D (s.take len) with
  | .error e => .error e
  | .ok block => .ok (block, s.drop len)

/-- Rust `fn read_bzip_to_end(r)`: decompress the remainder of the stream. -/
def read_bzip_to_end (D : List Nat → Res (List Nat)) (s : List Nat) : Res (List Nat) :=
  D s

/-- Rust `fn read_control_block(r, len) -> Result<Vec<Control>>`
(`CONTROL_SIZE = 3 * size_of::<u64>() = 24`). -/
def read_control_block (D : List Nat → Res (List Nat)) (s : List Nat) (len : Nat) :
    Res (List Control × List Nat) :=
  match read_bzip_block D s len with
  | .error e => .error e
  | .ok (block, s) =>
    if block.length % 24 ≠ 0 then .error .malformedControl
    else
      match read_controls (block.length / 24) block with
      | .error e => .error e
      | .ok cs => .ok (cs, s)

/-- Rust `struct Bsdiff4 { new_size, control, diff, extra }` -/
structure Bsdiff4 where
  new_size : Nat
  control : List Control
  diff : List Nat
  extra : List Nat
deriving DecidableEq, Repr

/-- Rust `Bsdiff4::read`: magic, three signed-magnitude nonnegative lengths, the
control block, the bounded diff block, the extra block to end of stream.
(`usize::try_from(new_size)` is the identity on a 64-bit platform.) -/
def Bsdiff4.read (D : List Nat → Res (List Nat)) (s : List Nat) : Res Bsdiff4 :=
  if (s.take 8).length ≠ 8 then .error .shortRead
  else if s.take 8 ≠ MAGIC then .error .badMagic
  else
    match read_positive_le_i64 (s.drop 8) with
    | .error e => .error e
    | .ok (len_control, s) =>
      match read_positive_le_i64 s with
      | .error e => .error e
      | .ok (len_diff, s) =>
        match read_positive_le_i64 s with
        | .error e => .error e
        | .ok (new_size, s) =>
          match read_control_block D s len_control with
          | .error e => .error e
          | .ok (control, s) =>
            match read_bzip_block D s len_diff with
            | .error e => .error e
            | .ok (diff, s) =>
              match read_bzip_to_end D s with
              | .error e => .error e
              | .ok extra => .ok ⟨new_size, control, diff, extra⟩

/-- An in-memory byte source with a cursor, as `io::Cursor<&[u8]>`:
the position may run past the end (reads then yield nothing). -/
structure RCursor where
  data : List Nat
  pos : Nat
deriving DecidableEq, Repr

/-- Bytes still readable from the cursor (zero once `pos ≥ data.length`). -/
def avail (c : RCursor) : Nat := c.data.length - c.pos

/-- Rust `fn copy_exact(reader, writer, amount)`: copy up to `amount` bytes
(`reader.take(amount)` + `io::copy`), then
`ensure!(bytes_written == amount, "copied less bytes than expected")`.
On success it returns exactly the next `amount` bytes and the advanced
cursor; with fewer than `amount` bytes available it is an error. -/
def copy_exact (c : RCursor) (amount : Nat) : Res (List Nat × RCursor) :=
  if amount ≤ avail c then .ok ((c.data.drop c.pos).take amount, ⟨c.data, c.pos + amount⟩)
  else .error .shortRead

/-- Rust `io::Cursor::seek(SeekFrom::Current(delta))`:
`u64::checked_add_signed`, an error on a negative or overflowing target. -/
def seek_current (c : RCursor) (delta : Int) : Res RCursor :=
  let np := (c.pos : Int) + delta
  if 0 ≤ np ∧ np < 2 ^ 64 then .ok ⟨c.data, np.toNat⟩ else .error .invalidSeek

/-- The loop body `izip!(new_chunk.iter_mut(), diff_chunk.iter())` with
`*orig = orig.wrapping_add(*diff)`, then writing all of `new_chunk`:
every zipped position wraps mod 256, positions of `new_chunk` beyond
`diff_chunk`'s length (none in practice) pass through unchanged. -/
def mix (new_chunk diff_chunk : List Nat) : List Nat :=
  List.zipWith (fun o d => (o + d) % 256) new_chunk diff_chunk
    ++ new_chunk.drop diff_chunk.length

/-- The per-instruction loop of `Bsdiff4::apply`, with the accumulated
output made explicit. -/
def apply_go : List Control → RCursor → RCursor → RCursor → List Nat → Res (List Nat)
  | [], _, _, _, out => .ok out
  | c :: rest, orig, diffc, extrac, out =>
    match copy_exact orig c.diff_amount with
    | .error e => .error e
    | .ok (new_chunk, orig) =>
      match copy_exact diffc c.diff_amount with
      | .error e => .error e
      | .ok (diff_chunk, diffc) =>
        match copy_exact extrac c.extra_amount with
        | .error e => .error e
        | .ok (extra_chunk, extrac) =>
          match seek_current orig c.seek with
          | .error e => .error e
          | .ok orig =>
            apply_go rest orig diffc extrac (out ++ mix new_chunk diff_chunk ++ extra_chunk)

/-- Rust `Bsdiff4::apply(original, new)`: fresh cursors over `diff` and `extra`,
replay every control record in order. -/
def Bsdiff4.apply (p : Bsdiff4) (orig : RCursor) : Res (List Nat) :=
  apply_go p.control orig ⟨p.diff, 0⟩ ⟨p.extra, 0⟩ []

/-- Rust `Bsdiff4::apply_to_slice(original)`. -/
def Bsdiff4.apply_to_slice (p : Bsdiff4) (original : List Nat) : Res (List Nat) :=
  p.apply ⟨original, 0⟩

/-- Total `diff_amount` (`copy_len`) demanded by a control sequence. -/
def sum_diff (cs : List Control) : Nat := (cs.map Control.diff_amount).sum

/-- Total `extra_amount` (`insert_len`) demanded by a control sequence. -/
def sum_extra (cs : List Control) : Nat := (cs.map Control.extra_amount).sum

/-- Rust `struct Checksum([u8; 16])` from `src/checksum.rs`. -/
structure Checksum where
  digest : List Nat
deriving DecidableEq, Repr

/-- Rust `Checksum::validate_bytes`: hash the candidate bytes and compare the
digests byte for byte; the MD5 function itself is the external `md5` crate,
kept abstract as a parameter. -/
def Checksum.validate_bytes (md5 : List Nat → List Nat) (c : Checksum)
    (bytes : List Nat) : Bool :=
  md5 bytes == c.digest

/-! ## Helper lemmas -/

theorem copy_exact_ok {c : RCursor} {a : Nat} {out : List Nat} {c2 : RCursor}
    (h : copy_exact c a = .ok (out, c2)) :
    a ≤ avail c ∧ out = (c.data.drop c.pos).take a ∧ c2 = ⟨c.data, c.pos + a⟩ := by
  unfold copy_exact at h
  split at h
  · rename_i hle
    simp only [Except.ok.injEq, Prod.mk.injEq] at h
    exact ⟨hle, h.1.symm, h.2.symm⟩
  · exact absurd h (by simp)

theorem copy_exact_ok_length {c : RCursor} {a : Nat} {out : List Nat} {c2 : RCursor}
    (h : copy_exact c a = .ok (out, c2)) : out.length = a := by
  obtain ⟨hle, hout, -⟩ := copy_exact_ok h
  have hav : avail c = c.data.length - c.pos := rfl
  subst hout
  simp only [List.length_take, List.length_drop]
  omega

theorem copy_exact_ok_cursor {c : RCursor} {a : Nat} {out : List Nat} {c2 : RCursor}
    (h : copy_exact c a = .ok (out, c2)) :
    c2.data = c.data ∧ a ≤ avail c ∧ avail c2 = avail c - a := by
  obtain ⟨hle, -, hc2⟩ := copy_exact_ok h
  subst hc2
  refine ⟨rfl, hle, ?_⟩
  have hav : avail c = c.data.length - c.pos := rfl
  simp only [avail]
  omega

theorem mix_length (a b : List Nat) : (mix a b).length = a.length := by
  simp only [mix, List.length_append, List.length_zipWith, List.length_drop]
  omega

theorem sum_diff_cons (c : Control) (cs : List Control) :
    sum_diff (c :: cs) = c.diff_amount + sum_diff cs := by
  simp [sum_diff]

theorem sum_extra_cons (c : Control) (cs : List Control) :
    sum_extra (c :: cs) = c.extra_amount + sum_extra cs := by
  simp [sum_extra]

theorem apply_go_length :
    ∀ (cs : List Control) (o d e : RCursor) (acc out : List Nat),
      apply_go cs o d e acc = .ok out →
      out.length = acc.length + sum_diff cs + sum_extra cs := by
  intro cs
  induction cs with
  | nil =>
    intro o d e acc out h
    simp only [apply_go, Except.ok.injEq] at h
    subst h
    simp [sum_diff, sum_extra]
  | cons c rest ih =>
    intro o d e acc out h
    cases h1 : copy_exact o c.diff_amount with
    | error e1 => simp only [apply_go, h1] at h; exact Except.noConfusion h
    | ok p1 =>
      obtain ⟨ch1, o2⟩ := p1
      cases h2 : copy_exact d c.diff_amount with
      | error e2 => simp only [apply_go, h1, h2] at h; exact Except.noConfusion h
      | ok p2 =>
        obtain ⟨ch2, d2⟩ := p2
        cases h3 : copy_exact e c.extra_amount with
        | error e3 => simp only [apply_go, h1, h2, h3] at h; exact Except.noConfusion h
        | ok p3 =>
          obtain ⟨ch3, e2⟩ := p3
          cases h4 : seek_current o2 c.seek with
          | error e4 => simp only [apply_go, h1, h2, h3, h4] at h; exact Except.noConfusion h
          | ok o3 =>
            simp only [apply_go, h1, h2, h3, h4] at h
            have hlen := ih o3 d2 e2 _ out h
            have l1 := copy_exact_ok_length h1
            have l3 := copy_exact_ok_length h3
            rw [sum_diff_cons, sum_extra_cons]
            simp only [List.length_append, mix_length, l1, l3] at hlen
            omega

theorem apply_go_consumes :
    ∀ (cs : List Control) (o d e : RCursor) (acc out : List Nat),
      apply_go cs o d e acc = .ok out →
      sum_diff cs ≤ avail d ∧ sum_extra cs ≤ avail e := by
  intro cs
  induction cs with
  | nil =>
    intro o d e acc out _
    simp [sum_diff, sum_extra]
  | cons c rest ih =>
    intro o d e acc out h
    cases h1 : copy_exact o c.diff_amount with
    | error e1 => simp only [apply_go, h1] at h; exact Except.noConfusion h
    | ok p1 =>
      obtain ⟨ch1, o2⟩ := p1
      cases h2 : copy_exact d c.diff_amount with
      | error e2 => simp only [apply_go, h1, h2] at h; exact Except.noConfusion h
      | ok p2 =>
        obtain ⟨ch2, d2⟩ := p2
        cases h3 : copy_exact e c.extra_amount with
        | error e3 => simp only [apply_go, h1, h2, h3] at h; exact Except.noConfusion h
        | ok p3 =>
          obtain ⟨ch3, e2⟩ := p3
          cases h4 : seek_current o2 c.seek with
          | error e4 => simp only [apply_go, h1, h2, h3, h4] at h; exact Except.noConfusion h
          | ok o3 =>
            simp only [apply_go, h1, h2, h3, h4] at h
            have hrest := ih o3 d2 e2 _ out h
            have hd := copy_exact_ok_cursor h2
            have he := copy_exact_ok_cursor h3
            rw [sum_diff_cons, sum_extra_cons]
            omega

theorem seek_current_eq (c : RCursor) (delta : Int) :
    seek_current c delta
      = if 0 ≤ (c.pos : Int) + delta ∧ (c.pos : Int) + delta < 2 ^ 64
        then .ok ⟨c.data, ((c.pos : Int) + delta).toNat⟩ else .error .invalidSeek := rfl

theorem copy_exact_zero (c : RCursor) : copy_exact c 0 = .ok ([], c) := by
  unfold copy_exact
  rw [if_pos (Nat.zero_le _)]
  simp

theorem seek_current_zero (c : RCursor) (hc : (c.pos : Int) < 2 ^ 64) :
    seek_current c 0 = .ok c := by
  rw [seek_current_eq]
  rw [if_pos ⟨by omega, by omega⟩]
  simp

theorem apply_go_cons_ok {da ea : Nat} {sk : Int} {rest : List Control}
    {orig diffc extrac : RCursor} {out ch1 ch2 ch3 : List Nat}
    {o2 d2 e2 o3 : RCursor}
    (h1 : copy_exact orig da = .ok (ch1, o2))
    (h2 : copy_exact diffc da = .ok (ch2, d2))
    (h3 : copy_exact extrac ea = .ok (ch3, e2))
    (h4 : seek_current o2 sk = .ok o3) :
    apply_go (⟨da, ea, sk⟩ :: rest) orig diffc extrac out
      = apply_go rest o3 d2 e2 (out ++ mix ch1 ch2 ++ ch3) := by
  simp only [apply_go, h1, h2, h3, h4]

theorem apply_go_cons_err_diff {da ea : Nat} {sk : Int} {rest : List Control}
    {orig diffc extrac : RCursor} {out ch1 : List Nat} {o2 : RCursor} {err : PErr}
    (h1 : copy_exact orig da = .ok (ch1, o2))
    (h2 : copy_exact diffc da = .error err) :
    apply_go (⟨da, ea, sk⟩ :: rest) orig diffc extrac out = .error err := by
  simp only [apply_go, h1, h2]

theorem apply_go_cons_err_extra {da ea : Nat} {sk : Int} {rest : List Control}
    {orig diffc extrac : RCursor} {out ch1 ch2 : List Nat}
    {o2 d2 : RCursor} {err : PErr}
    (h1 : copy_exact orig da = .ok (ch1, o2))
    (h2 : copy_exact diffc da = .ok (ch2, d2))
    (h3 : copy_exact extrac ea = .error err) :
    apply_go (⟨da, ea, sk⟩ :: rest) orig diffc extrac out = .error err := by
  simp only [apply_go, h1, h2, h3]

theorem apply_go_cons_err_seek {da ea : Nat} {sk : Int} {rest : List Control}
    {orig diffc extrac : RCursor} {out ch1 ch2 ch3 : List Nat}
    {o2 d2 e2 : RCursor} {err : PErr}
    (h1 : copy_exact orig da = .ok (ch1, o2))
    (h2 : copy_exact diffc da = .ok (ch2, d2))
    (h3 : copy_exact extrac ea = .ok (ch3, e2))
    (h4 : seek_current o2 sk = .error err) :
    apply_go (⟨da, ea, sk⟩ :: rest) orig diffc extrac out = .error err := by
  simp only [apply_go, h1, h2, h3, h4]

/-! ## Claim theorems -/

/-- C1: the spec requires the signed-magnitude "negative zero" pattern
(8 little-endian bytes with only the most-significant bit set, i.e. sign bit
set and all 63 magnitude bits zero) to decode to zero without overflow or
panic.  The code diverges: `ones_complement_i64` computes
`y & i64::MIN | y.wrapping_abs()`, and `wrapping_abs` maps `i64::MIN` to
itself, so the decoder returns `i64::MIN = -2 ^ 63` instead of `0` (no panic
occurs, but the decoded value is not zero). -/
theorem ones_complement_negative_zero_is_min :
    read_ones_complement_le_i64 [0, 0, 0, 0, 0, 0, 0, 0x80]
      = .ok (-(2 ^ 63), []) ∧ ((-(2 ^ 63) : Int) ≠ 0) :=
  ⟨rfl, by decide⟩

/-- C5: the copy step's output bytes are the element-wise sum, modulo 256,
of the copied original bytes and the diff-stream bytes — never a clamp or an
overflow error.  First conjunct: on equal-length chunks (which `copy_exact`
guarantees), `mix` is exactly the byte-wise wrap-around sum.  Second
conjunct: applying a one-instruction patch copying the whole original emits
exactly those wrapped sums. -/
theorem copy_step_wraps_mod256 :
    (∀ a b : List Nat, a.length = b.length →
        mix a b = List.zipWith (fun o d => (o + d) % 256) a b)
    ∧ ∀ (orig diffb : List Nat), orig.length = diffb.length →
        orig.length < 2 ^ 63 →
        Bsdiff4.apply_to_slice ⟨orig.length, [⟨orig.length, 0, 0⟩], diffb, []⟩ orig
          = .ok (List.zipWith (fun o d => (o + d) % 256) orig diffb) := by
  have hmix : ∀ a b : List Nat, a.length = b.length →
      mix a b = List.zipWith (fun o d => (o + d) % 256) a b := by
    intro a b h
    simp only [mix, ← h, List.drop_length, List.append_nil]
  refine ⟨hmix, ?_⟩
  intro orig diffb h hlen
  have h1 : copy_exact ⟨orig, 0⟩ orig.length = .ok (orig, ⟨orig, orig.length⟩) := by
    unfold copy_exact avail
    rw [if_pos (by simp)]
    simp
  have h2 : copy_exact ⟨diffb, 0⟩ orig.length = .ok (diffb, ⟨diffb, orig.length⟩) := by
    unfold copy_exact avail
    rw [if_pos (by simp [h])]
    simp [h]
  have h4 : seek_current ⟨orig, orig.length⟩ 0 = .ok ⟨orig, orig.length⟩ :=
    seek_current_zero ⟨orig, orig.length⟩
      (by show ((orig.length : Nat) : Int) < 2 ^ 64; omega)
  show apply_go [⟨orig.length, 0, 0⟩] ⟨orig, 0⟩ ⟨diffb, 0⟩ ⟨[], 0⟩ []
      = .ok (List.zipWith (fun o d => (o + d) % 256) orig diffb)
  rw [apply_go_cons_ok h1 h2 (copy_exact_zero _) h4]
  show Except.ok ([] ++ mix orig diffb ++ [])
      = .ok (List.zipWith (fun o d => (o + d) % 256) orig diffb)
  simp [hmix orig diffb h]

/-- Witness for C5 at the spec's own example: original byte 0xFF with diff
byte 0x02 yields output byte 0x01. -/
theorem copy_step_wraps_mod256_witness :
    Bsdiff4.apply_to_slice ⟨1, [⟨1, 0, 0⟩], [2], []⟩ [255] = .ok [1] := by
  exact copy_step_wraps_mod256.2 [255] [2] rfl (by decide)

/-- C8: a request for more bytes than remain always fails with a short-read
error; a successful copy never silently yields fewer bytes than requested.
Third conjunct: an `apply` whose single instruction requests `insert_len`
bytes from a shorter extra stream fails with a short read. -/
theorem copy_exact_short_read_exact :
    (∀ (c : RCursor) (amount : Nat), avail c < amount →
        copy_exact c amount = .error .shortRead)
    ∧ (∀ (c : RCursor) (amount : Nat) (out : List Nat) (c2 : RCursor),
        copy_exact c amount = .ok (out, c2) → out.length = amount)
    ∧ (∀ (n m : Nat) (extrab orig : List Nat), extrab.length < m →
        Bsdiff4.apply ⟨n, [⟨0, m, 0⟩], [], extrab⟩ ⟨orig, 0⟩ = .error .shortRead) := by
  refine ⟨?_, ?_, ?_⟩
  · intro c amount h
    unfold copy_exact
    rw [if_neg (by omega)]
  · intro c amount out c2 h
    exact copy_exact_ok_length h
  · intro n m extrab orig h
    have h3 : copy_exact ⟨extrab, 0⟩ m = .error .shortRead := by
      unfold copy_exact avail
      rw [if_neg (by simp; omega)]
    show apply_go [⟨0, m, 0⟩] ⟨orig, 0⟩ ⟨[], 0⟩ ⟨extrab, 0⟩ [] = .error .shortRead
    rw [apply_go_cons_err_extra (copy_exact_zero _) (copy_exact_zero _) h3]

/-- Witness for C8: one instruction requests 1 extra byte from an empty
extra stream; apply fails with the short-read error. -/
theorem copy_exact_short_read_exact_witness :
    Bsdiff4.apply ⟨0, [⟨0, 1, 0⟩], [], []⟩ ⟨[], 0⟩ = .error .shortRead := by
  exact copy_exact_short_read_exact.2.2 0 1 [] [] (by decide)

/-- C9: the integrity check accepts a candidate byte buffer exactly when the
(abstractly modelled) MD5 digest of the candidate equals the stored
16-byte digest. -/
theorem validate_bytes_iff_digest_eq (md5 : List Nat → List Nat) (c : Checksum)
    (bytes : List Nat) :
    Checksum.validate_bytes md5 c bytes = true ↔ md5 bytes = c.digest := by
  simp [Checksum.validate_bytes]

/-- Identity decompressor used to exhibit concrete parsed containers. -/
def d_id : List Nat → Res (List Nat) := fun l => .ok l

/-- A container parsed from `s2`: `new_size = 5` but a single instruction
that appends nothing. -/
def p2 : Bsdiff4 := ⟨5, [⟨0, 0, 0⟩], [], []⟩

/-- Stream for `p2`: magic, `len_control = 24`, `len_diff = 0`,
`new_size = 5`, one all-zero control record. -/
def s2 : List Nat :=
  MAGIC ++ [24, 0, 0, 0, 0, 0, 0, 0] ++ [0, 0, 0, 0, 0, 0, 0, 0]
    ++ [5, 0, 0, 0, 0, 0, 0, 0] ++ List.replicate 24 0

/-- C2 (counterexample): a successfully parsed container whose apply returns
`Ok` with an output of 0 bytes although `new_size = 5`: the applier never
compares the produced length against `new_size`. -/
theorem apply_ok_length_ne_new_size :
    Bsdiff4.read d_id s2 = .ok p2
    ∧ p2.apply_to_slice [] = .ok []
    ∧ ([] : List Nat).length ≠ p2.new_size :=
  ⟨rfl, rfl, by decide⟩

/-- C2 (amended): on every `Ok` apply the output length equals the sum over
all instructions of `copy_len + insert_len`; agreement with the container's
`target_length` field is never checked and holds only when that sum happens
to equal `new_size`. -/
theorem apply_ok_output_length_eq_sum (p : Bsdiff4) (orig : RCursor)
    (out : List Nat) (h : p.apply orig = .ok out) :
    out.length = sum_diff p.control + sum_extra p.control := by
  have hlen := apply_go_length p.control orig ⟨p.diff, 0⟩ ⟨p.extra, 0⟩ [] out h
  simpa using hlen

/-- Witness for C2 (amended) at a concrete container and original. -/
theorem apply_ok_output_length_eq_sum_witness :
    ([11, 22, 30] : List Nat).length
      = sum_diff [⟨2, 1, 0⟩] + sum_extra [⟨2, 1, 0⟩] :=
  apply_ok_output_length_eq_sum ⟨3, [⟨2, 1, 0⟩], [10, 20], [30]⟩ ⟨[1, 2], 0⟩
    [11, 22, 30] rfl

/-- A container parsed from `s3`: no instructions, yet a 1-byte diff
stream. -/
def p3 : Bsdiff4 := ⟨0, [], [1], []⟩

/-- Stream for `p3`: magic, `len_control = 0`, `len_diff = 1`,
`new_size = 0`, then the 1-byte diff block. -/
def s3 : List Nat :=
  MAGIC ++ [0, 0, 0, 0, 0, 0, 0, 0] ++ [1, 0, 0, 0, 0, 0, 0, 0]
    ++ [0, 0, 0, 0, 0, 0, 0, 0] ++ [1]

/-- C3 (counterexample): a successfully parsed container whose instructions
consume strictly fewer bytes than the diff stream contains, yet apply
returns `Ok`: leftover stream bytes are silently tolerated. -/
theorem underconsumption_apply_succeeds :
    Bsdiff4.read d_id s3 = .ok p3
    ∧ sum_diff p3.control ≠ p3.diff.length
    ∧ p3.apply_to_slice [] = .ok [] :=
  ⟨rfl, by decide, rfl⟩

/-- C3 (amended): if the instructions demand strictly more bytes than the
diff stream (or the extra stream) contains, apply fails; instructions
consuming fewer bytes than the streams contain are not detected. -/
theorem overconsumption_apply_fails (p : Bsdiff4) (orig : RCursor)
    (h : p.diff.length < sum_diff p.control
        ∨ p.extra.length < sum_extra p.control) :
    ∃ err, p.apply orig = .error err := by
  cases hres : p.apply orig with
  | error e => exact ⟨e, rfl⟩
  | ok out =>
    exfalso
    have hcons := apply_go_consumes p.control orig ⟨p.diff, 0⟩ ⟨p.extra, 0⟩ [] out hres
    have hd : avail ⟨p.diff, 0⟩ = p.diff.length := by simp [avail]
    have he : avail ⟨p.extra, 0⟩ = p.extra.length := by simp [avail]
    rw [hd, he] at hcons
    cases h with
    | inl h => omega
    | inr h => omega

/-- Witness for C3 (amended): one instruction demands 2 diff bytes, the
diff stream holds 1, so apply errors. -/
theorem overconsumption_apply_fails_witness :
    ∃ err, Bsdiff4.apply ⟨0, [⟨2, 0, 0⟩], [9], []⟩ ⟨[5, 6], 0⟩ = .error err :=
  overconsumption_apply_fails ⟨0, [⟨2, 0, 0⟩], [9], []⟩ ⟨[5, 6], 0⟩
    (Or.inl (by decide))

/-- A patch whose single instruction reads nothing and seeks to
position -1. -/
def p4 : Bsdiff4 := ⟨0, [⟨0, 0, -1⟩], [], []⟩

/-- C4 (counterexample): `apply_to_slice` on an in-memory original errors
at a negative intermediate cursor position even though the position is
never read from afterwards — refuting the claim that only a subsequent
over-reading copy makes a backward seek fail. -/
theorem negative_seek_immediate_error :
    p4.apply_to_slice [] = .error .invalidSeek :=
  rfl

/-- C4 (amended): during apply, a `seek_delta` that would move the original
cursor to a negative position is an immediate invalid-seek error even when
nothing is subsequently read (first conjunct); a target at or past the end
of the data is not itself an error — the seek succeeds and only a later
over-reading copy step can fail (second conjunct). -/
theorem apply_negative_seek_errors :
    (∀ (p : Bsdiff4) (orig : RCursor) (sk : Int) (rest : List Control),
        p.control = ⟨0, 0, sk⟩ :: rest → (orig.pos : Int) + sk < 0 →
        p.apply orig = .error .invalidSeek)
    ∧ (∀ (c : RCursor) (delta : Int), 0 ≤ (c.pos : Int) + delta →
        (c.pos : Int) + delta < 2 ^ 64 →
        seek_current c delta = .ok ⟨c.data, ((c.pos : Int) + delta).toNat⟩) := by
  constructor
  · intro p orig sk rest hc hneg
    have h4 : seek_current orig sk = .error .invalidSeek := by
      rw [seek_current_eq]
      rw [if_neg (by rintro ⟨h0, -⟩; omega)]
    show apply_go p.control orig ⟨p.diff, 0⟩ ⟨p.extra, 0⟩ [] = .error .invalidSeek
    rw [hc]
    rw [apply_go_cons_err_seek (copy_exact_zero _) (copy_exact_zero _)
      (copy_exact_zero _) h4]
  · intro c delta h0 h1
    rw [seek_current_eq]
    rw [if_pos ⟨h0, h1⟩]

/-- Witness for C4 (amended) at a concrete patch seeking backward past the
start from position 1. -/
theorem apply_negative_seek_errors_witness :
    Bsdiff4.apply ⟨7, [⟨0, 0, -5⟩], [], []⟩ ⟨[1, 2], 1⟩ = .error .invalidSeek :=
  apply_negative_seek_errors.1 ⟨7, [⟨0, 0, -5⟩], [], []⟩ ⟨[1, 2], 1⟩ (-5) [] rfl
    (by decide)

theorem read_i64_le_append {b u : List Nat} (hb : b.length = 8) :
    read_i64_le (b ++ u) = .ok (i64_of_raw (le_bytes_to_nat b), u) := by
  unfold read_i64_le
  rw [if_pos (by simp [hb])]
  rw [List.take_left' hb, List.drop_left' hb]

theorem read_positive_append_pos {b u : List Nat} (hb : b.length = 8)
    (hv : 0 ≤ i64_of_raw (le_bytes_to_nat b)) :
    read_positive_le_i64 (b ++ u)
      = .ok ((i64_of_raw (le_bytes_to_nat b)).toNat, u) := by
  simp only [read_positive_le_i64, read_i64_le_append hb, u64_try_from]
  rw [if_pos hv]

theorem read_positive_append_neg {b u : List Nat} (hb : b.length = 8)
    (hv : i64_of_raw (le_bytes_to_nat b) < 0) :
    read_positive_le_i64 (b ++ u) = .error .invalidLength := by
  simp only [read_positive_le_i64, read_i64_le_append hb, u64_try_from]
  rw [if_neg (by omega)]

theorem read_magic_ok (D : List Nat → Res (List Nat)) (t : List Nat) :
    Bsdiff4.read D (MAGIC ++ t)
      = match read_positive_le_i64 t with
        | .error e => .error e
        | .ok (len_control, s) =>
          match read_positive_le_i64 s with
          | .error e => .error e
          | .ok (len_diff, s) =>
            match read_positive_le_i64 s with
            | .error e => .error e
            | .ok (new_size, s) =>
              match read_control_block D s len_control with
              | .error e => .error e
              | .ok (control, s) =>
                match read_bzip_block D s len_diff with
                | .error e => .error e
                | .ok (diff, s) =>
                  match read_bzip_to_end D s with
                  | .error e => .error e
                  | .ok extra => .ok ⟨new_size, control, diff, extra⟩ := by
  unfold Bsdiff4.read
  rw [List.take_left' (show MAGIC.length = 8 from rfl)]
  rw [List.drop_left' (show MAGIC.length = 8 from rfl)]
  rw [if_neg (by decide), if_neg (by simp)]

/-- C6: a header whose `new_size` field has the sign bit set (a negative
signed-magnitude value, including nonzero magnitudes) always makes parse
fail with the invalid-length error; the field is never reinterpreted as an
unsigned value.  The first two length fields are unconstrained: if either
is negative the parse also fails with the same invalid-length error before
reaching `new_size`. -/
theorem read_rejects_negative_new_size (D : List Nat → Res (List Nat))
    (b1 b2 b3 rest : List Nat)
    (h1 : b1.length = 8) (h2 : b2.length = 8) (h3 : b3.length = 8)
    (hneg : i64_of_raw (le_bytes_to_nat b3) < 0) :
    Bsdiff4.read D (MAGIC ++ b1 ++ b2 ++ b3 ++ rest) = .error .invalidLength := by
  have hm : MAGIC ++ b1 ++ b2 ++ b3 ++ rest
      = MAGIC ++ (b1 ++ (b2 ++ (b3 ++ rest))) := by
    simp [List.append_assoc]
  rw [hm, read_magic_ok]
  by_cases hv1 : 0 ≤ i64_of_raw (le_bytes_to_nat b1)
  · by_cases hv2 : 0 ≤ i64_of_raw (le_bytes_to_nat b2)
    · simp only [read_positive_append_pos h1 hv1, read_positive_append_pos h2 hv2,
        read_positive_append_neg h3 hneg]
    · simp only [read_positive_append_pos h1 hv1,
        read_positive_append_neg h2 (by omega)]
  · simp only [read_positive_append_neg h1 (by omega)]

/-- Witness for C6: `new_size` bytes encode sign bit set with magnitude 1;
parse of the concrete stream fails with the invalid-length error. -/
theorem read_rejects_negative_new_size_witness :
    Bsdiff4.read d_id (MAGIC ++ [0, 0, 0, 0, 0, 0, 0, 0]
        ++ [0, 0, 0, 0, 0, 0, 0, 0] ++ [1, 0, 0, 0, 0, 0, 0, 0x80] ++ [])
      = .error .invalidLength :=
  read_rejects_negative_new_size d_id [0, 0, 0, 0, 0, 0, 0, 0]
    [0, 0, 0, 0, 0, 0, 0, 0] [1, 0, 0, 0, 0, 0, 0, 0x80] [] rfl rfl rfl
    (by decide)

/-- C7: whenever the decompressed control block's byte length is not a
multiple of 24 (three 8-byte fields per record), parse fails with the
malformed-control-block error. -/
theorem read_rejects_bad_control_size (D : List Nat → Res (List Nat))
    (b1 b2 b3 rest blk : List Nat)
    (h1 : b1.length = 8) (h2 : b2.length = 8) (h3 : b3.length = 8)
    (hv1 : 0 ≤ i64_of_raw (le_bytes_to_nat b1))
    (hv2 : 0 ≤ i64_of_raw (le_bytes_to_nat b2))
    (hv3 : 0 ≤ i64_of_raw (le_bytes_to_nat b3))
    (hD : D (rest.take (i64_of_raw (le_bytes_to_nat b1)).toNat) = .ok blk)
    (hmod : blk.length % 24 ≠ 0) :
    Bsdiff4.read D (MAGIC ++ b1 ++ b2 ++ b3 ++ rest)
      = .error .malformedControl := by
  have hm : MAGIC ++ b1 ++ b2 ++ b3 ++ rest
      = MAGIC ++ (b1 ++ (b2 ++ (b3 ++ rest))) := by
    simp [List.append_assoc]
  have hrcb : read_control_block D rest (i64_of_raw (le_bytes_to_nat b1)).toNat
      = .error .malformedControl := by
    simp only [read_control_block, read_bzip_block, hD]
    rw [if_pos hmod]
  rw [hm, read_magic_ok]
  simp only [read_positive_append_pos h1 hv1, read_positive_append_pos h2 hv2,
    read_positive_append_pos h3 hv3, hrcb]

/-- Witness for C7: a 1-byte control block (1 is not a multiple of 24)
makes the concrete parse fail with the malformed-control-block error. -/
theorem read_rejects_bad_control_size_witness :
    Bsdiff4.read d_id (MAGIC ++ [1, 0, 0, 0, 0, 0, 0, 0]
        ++ [0, 0, 0, 0, 0, 0, 0, 0] ++ [0, 0, 0, 0, 0, 0, 0, 0] ++ [1])
      = .error .malformedControl :=
  read_rejects_bad_control_size d_id [1, 0, 0, 0, 0, 0, 0, 0]
    [0, 0, 0, 0, 0, 0, 0, 0] [0, 0, 0, 0, 0, 0, 0, 0] [1] [1] rfl rfl rfl
    (by decide) (by decide) (by decide) rfl (by decide)

/-- C10: parse performs no cross-validation between the decoded instruction
sequence, the stream lengths and `target_length`: whenever the magic is
right, the three header lengths are nonnegative, the decompressor succeeds
on all three blocks, the control block is a multiple of 24 bytes and its
records decode (nonnegative `copy_len`/`insert_len`), parse succeeds — no
hypothesis relates the instruction sums to the diff/extra stream lengths
or to `new_size`. -/
theorem read_no_cross_validation (D : List Nat → Res (List Nat))
    (b1 b2 b3 rest blk diffb extrab : List Nat) (ctrls : List Control)
    (h1 : b1.length = 8) (h2 : b2.length = 8) (h3 : b3.length = 8)
    (hv1 : 0 ≤ i64_of_raw (le_bytes_to_nat b1))
    (hv2 : 0 ≤ i64_of_raw (le_bytes_to_nat b2))
    (hv3 : 0 ≤ i64_of_raw (le_bytes_to_nat b3))
    (hD1 : D (rest.take (i64_of_raw (le_bytes_to_nat b1)).toNat) = .ok blk)
    (hmod : blk.length % 24 = 0)
    (hctrl : read_controls (blk.length / 24) blk = .ok ctrls)
    (hD2 : D ((rest.drop (i64_of_raw (le_bytes_to_nat b1)).toNat).take
        (i64_of_raw (le_bytes_to_nat b2)).toNat) = .ok diffb)
    (hD3 : D ((rest.drop (i64_of_raw (le_bytes_to_nat b1)).toNat).drop
        (i64_of_raw (le_bytes_to_nat b2)).toNat) = .ok extrab) :
    Bsdiff4.read D (MAGIC ++ b1 ++ b2 ++ b3 ++ rest)
      = .ok ⟨(i64_of_raw (le_bytes_to_nat b3)).toNat, ctrls, diffb, extrab⟩ := by
  have hm : MAGIC ++ b1 ++ b2 ++ b3 ++ rest
      = MAGIC ++ (b1 ++ (b2 ++ (b3 ++ rest))) := by
    simp [List.append_assoc]
  have hrcb : read_control_block D rest (i64_of_raw (le_bytes_to_nat b1)).toNat
      = .ok (ctrls, rest.drop (i64_of_raw (le_bytes_to_nat b1)).toNat) := by
    simp only [read_control_block, read_bzip_block, hD1]
    rw [if_neg (by simp [hmod])]
    simp only [hctrl]
  rw [hm, read_magic_ok]
  simp only [read_positive_append_pos h1 hv1, read_positive_append_pos h2 hv2,
    read_positive_append_pos h3 hv3, hrcb, read_bzip_block, hD2,
    read_bzip_to_end, hD3]

/-- Container parsed from `s10`: its single instruction demands 2 diff
bytes, yet the diff stream holds only 1 byte. -/
def p10 : Bsdiff4 := ⟨5, [⟨2, 0, 0⟩], [7], []⟩

/-- Stream for `p10`: magic, `len_control = 24`, `len_diff = 1`,
`new_size = 5`, one control record `(2, 0, 0)`, then the 1-byte diff. -/
def s10 : List Nat :=
  MAGIC ++ [24, 0, 0, 0, 0, 0, 0, 0] ++ [1, 0, 0, 0, 0, 0, 0, 0]
    ++ [5, 0, 0, 0, 0, 0, 0, 0]
    ++ ([2, 0, 0, 0, 0, 0, 0, 0] ++ [0, 0, 0, 0, 0, 0, 0, 0]
        ++ [0, 0, 0, 0, 0, 0, 0, 0] ++ [7])

/-- Witness for C10: the concrete stream `s10` parses successfully although
its instruction demands more diff bytes than the diff stream contains. -/
theorem read_no_cross_validation_witness :
    Bsdiff4.read d_id s10 = .ok p10
    ∧ p10.diff.length < sum_diff p10.control :=
  ⟨read_no_cross_validation d_id [24, 0, 0, 0, 0, 0, 0, 0]
      [1, 0, 0, 0, 0, 0, 0, 0] [5, 0, 0, 0, 0, 0, 0, 0]
      ([2, 0, 0, 0, 0, 0, 0, 0] ++ [0, 0, 0, 0, 0, 0, 0, 0]
        ++ [0, 0, 0, 0, 0, 0, 0, 0] ++ [7])
      ([2, 0, 0, 0, 0, 0, 0, 0] ++ [0, 0, 0, 0, 0, 0, 0, 0]
        ++ [0, 0, 0, 0, 0, 0, 0, 0])
      [7] [] [⟨2, 0, 0⟩] rfl rfl rfl (by decide) (by decide) (by decide)
      (by rfl) (by decide) (by rfl) (by rfl) (by rfl),
    by decide⟩

end Bsdiff
